import Mathlib

/-!
# Verification of the dataselect reconciliation engine

A shallow embedding, in Lean 4, of the core data model and algorithms of
`dataselect.c` (miniSEED data selection, v3.17): the per-record metadata
(`Record`), the selection-limit computation (`findselectlimits`), the
coverage / pruning pass (`findcoverage`, `trimtrace`), the segment time
reconciliation (`reconcile_tracetimes`), the bottom-up merge sort over
record lists (`sortrecmap` / `recordcmp`), boundary splitting of records,
the quality comparison (`qcompare`), and the record write-out loop of
`writetraces` together with the header checks and trim loops of
`trimrecord`.

Modelling conventions:
* `hptime_t` time ticks are `Int` (`HPTMODULUS` ticks per second).
* The `HPTERROR` sentinel used by the C code for "unset" fields is
  modelled as `Option Int` (`none` = unset), as are the global start/end
  times.
* `double` sample rates and tolerances are modelled as `ℚ`; the C casts
  `(hptime_t)(...)`, truncation toward zero, are modelled with
  `Int.floor`, which agrees on the nonnegative values that occur.
* Fallible external codec operations (`msr_unpack`, `msr_pack`) are
  modelled by per-record oracle fields (`unpackok`, `packedcontent`)
  carried on the writer's view of a record (`WRecord`).
-/

namespace Dataselect

open scoped List

/-- High-precision time, in ticks of `1/HPTMODULUS` seconds (`hptime_t`). -/
abbrev Hptime := Int

/-- Ticks per second (libmseed `HPTMODULUS`). -/
def HPTMODULUS : Int := 1000000

/-- Per-record metadata entry (`Record` struct of dataselect.c).
`reclen = 0` marks the record as non-contributing.  The `HPTERROR`
sentinels of `selectstart`/`selectend`/`newstart`/`newend` are modelled
as `none`.  File/offset bookkeeping and the intrusive list pointers are
not part of the model (records live in Lean lists). -/
structure Record where
  reclen : Nat
  starttime : Hptime
  endtime : Hptime
  quality : Char := 'D'
  selectstart : Option Hptime := none
  selectend : Option Hptime := none
  newstart : Option Hptime := none
  newend : Option Hptime := none
  deriving Repr, DecidableEq

/-- Global options of dataselect that the modelled functions read:
prune mode (`prunedata`), best-quality priority flag, the time
tolerance (`-tt`, C default `-1.0` = "half a sample period" is `none`),
and the global start/end time selections (`-ts`/`-te`, `HPTERROR`
sentinel is `none`). -/
structure Config where
  prunedata : Char := ' '
  bestquality : Bool := true
  timetol : Option ℚ := none
  starttime : Option Hptime := none
  endtime : Option Hptime := none
  deriving Repr, DecidableEq

/-- `qcompare` of dataselect.c: compare two quality codes.
Returns `-1` when `quality1` is greater, `0` on equality, `1` when
`quality2` is greater, with the intended order R < D < Q < M. -/
def qcompare (quality1 quality2 : Char) : Int :=
  if quality1 = quality2 then 0
  else if quality1 = 'R' ∧ (quality2 = 'D' ∨ quality2 = 'Q' ∨ quality2 = 'M') then 1
  else if quality1 = 'D' ∧ (quality2 = 'Q' ∨ quality2 = 'M') then 1
  else if quality1 = 'Q' ∧ quality2 = 'M' then 1
  else -1

/-- Numeric rank of the four standard quality codes, R < D < Q < M. -/
def qualityRank (q : Char) : Nat :=
  if q = 'R' then 1 else if q = 'D' then 2 else if q = 'Q' then 3 else 4

/-- The four standard quality codes. -/
def standardQualities : List Char := ['R', 'D', 'Q', 'M']

/-- The effective start time of a record: `newstart` when set, else the
original start time (used by `recordcmp`, `findcoverage` and the
Record Writer). -/
def effStart (rec : Record) : Hptime :=
  rec.newstart.getD rec.starttime

/-- The effective end time of a record: `newend` when set, else the
original end time. -/
def effEnd (rec : Record) : Hptime :=
  rec.newend.getD rec.endtime

/-- `recordcmp` of dataselect.c: returns 1 when `rec1`'s effective start
time is greater than `rec2`'s, otherwise 0 (the unreachable NULL check
aside). -/
def recordcmp (rec1 rec2 : Record) : Int :=
  if effStart rec1 > effStart rec2 then 1 else 0

/-! ### Bottom-up merge sort (`sortrecmap`)

The C code sorts an intrusive singly-linked `RecordMap` with Simon
Tatham's bottom-up list mergesort, taking the element whose key is not
greater (`recordcmp (p, q) <= 0` selects `p`).  The functional embedding
is stated generically over the sort key (`key`); `sortrecmap`
instantiates it with `effStart`, matching `recordcmp`, and the Record
Writer's ID-level write lists reuse it keyed on the inner record. -/

/-- The inner merge of one chunk pair in `sortrecmap`: repeatedly emit
from `q` when `recordcmp(p,q) > 0` (i.e. `key p > key q`), else from
`p`; ties go to `p`, keeping the merge stable. -/
def mergeBy (key : α → Int) : List α → List α → List α
  | [], qs => qs
  | ps, [] => ps
  | p :: ps, q :: qs =>
    if key p > key q then q :: mergeBy key (p :: ps) qs
    else p :: mergeBy key ps (q :: qs)
  termination_by ps qs => ps.length + qs.length

/-- One outer pass of `sortrecmap` at sublist size `insize`: walk the
list, merging adjacent chunk pairs of `insize` elements each.  The C
code never runs a pass with `insize = 0`; the model returns the list
unchanged in that (unreachable) case. -/
def onepassBy (key : α → Int) (insize : Nat) (l : List α) : List α :=
  if insize = 0 then l
  else if l.isEmpty then []
  else
    mergeBy key (l.take insize) ((l.drop insize).take insize) ++
      onepassBy key insize (l.drop (insize + insize))
  termination_by l.length
  decreasing_by
    rename_i h0 hne
    have hl : 0 < l.length := by
      cases l with
      | nil => simp at hne
      | cons a t => simp
    have : 0 < insize + insize := by omega
    simp only [List.length_drop]
    omega

/-- The outer doubling loop of `sortrecmap`: run passes with `insize`
doubling until a pass performs at most one merge (`length ≤ 2·insize`),
and return the result of that final pass. -/
def sortLoopBy (key : α → Int) (insize : Nat) (l : List α) : List α :=
  if insize = 0 then l
  else if l.length ≤ insize + insize then onepassBy key insize l
  else sortLoopBy key (insize + insize) (onepassBy key insize l)
  termination_by l.length - insize
  decreasing_by
    rename_i h0 hgt
    simp only [not_le] at hgt
    have hlen : ∀ (m : List α), (onepassBy key insize m).length = m.length := by
      intro m
      induction m using onepassBy.induct key insize with
      | case1 m h => rw [onepassBy]; simp [h]
      | case2 m h h2 =>
        rw [onepassBy]
        simp only [if_neg h, if_pos h2]
        simp [List.isEmpty_iff] at h2
        simp [h2]
      | case3 m h h2 ih =>
        rw [onepassBy]
        simp only [if_neg h, if_neg h2, List.length_append, ih]
        have hm : ∀ (xs ys : List α), (mergeBy key xs ys).length = xs.length + ys.length := by
          intro xs ys
          induction xs, ys using mergeBy.induct key with
          | case1 qs => simp [mergeBy]
          | case2 ps h => cases ps <;> simp [mergeBy]
          | case3 p ps q qs hlt ih2 => rw [mergeBy]; simp [if_pos hlt, ih2]; omega
          | case4 p ps q qs hlt ih2 => rw [mergeBy]; simp [if_neg hlt, ih2]; omega
        rw [hm]
        simp only [List.length_take, List.length_drop]
        omega
    have := hlen l
    omega

/-- `sortrecmap` of dataselect.c: bottom-up iterative merge sort of a
record list keyed on effective start time; empty lists are returned
unchanged. -/
def sortrecmap (recs : List Record) : List Record :=
  if recs.isEmpty then recs else sortLoopBy effStart 1 recs

/-- Invariant of the bottom-up passes: every aligned chunk of `insize`
consecutive elements is sorted by key. -/
def ChunksSortedBy (key : α → Int) (insize : Nat) (l : List α) : Prop :=
  ∀ i : Nat, ((l.drop (insize * i)).take insize).Pairwise (fun a b => key a ≤ key b)

/-! ### Selection limits (`findselectlimits`)

Selection entries (`Selections` / `SelectTime` of libmseed) are
modelled with the source-name glob match precomputed as a boolean
(`srcmatch`; glob matching is external to the core).  `ms_matchselect`
is libmseed: it returns the next entry whose source matches and which
has a time window overlapping the record, together with that first
overlapping window (the inner loop of `findselectlimits` resumes from
it). -/

/-- One selection time window (`SelectTime` of libmseed). -/
structure SelectTime where
  starttime : Hptime
  endtime : Hptime
  deriving Repr, DecidableEq

/-- One selections entry (`Selections` of libmseed): whether its source
name expression matches the record's srcname, and its list of time
windows. -/
structure Selections where
  srcmatch : Bool
  timewindows : List SelectTime
  deriving Repr, DecidableEq

/-- Whether a selection window overlaps the record interval
`[starttime, endtime]` (the time test of libmseed `ms_matchselect`). -/
def overlapswindow (starttime endtime : Hptime) (w : SelectTime) : Bool :=
  decide (w.starttime ≤ endtime ∧ w.endtime ≥ starttime)

/-- The suffix of a window list starting at the first window that
overlaps the record (the `SelectTime` pointer returned by
`ms_matchselect`), or `none` when no window overlaps. -/
def msMatchselectWindows (starttime endtime : Hptime) :
    List SelectTime → Option (List SelectTime)
  | [] => none
  | w :: ws =>
    if overlapswindow starttime endtime w then some (w :: ws)
    else msMatchselectWindows starttime endtime ws

/-- libmseed `ms_matchselect` over the remaining selections: the first
source-matching entry with an overlapping window yields that window
suffix plus the selections after the entry (the caller continues from
`select->next`). -/
def ms_matchselect (starttime endtime : Hptime) :
    List Selections → Option (List SelectTime × List Selections)
  | [] => none
  | s :: rest =>
    if s.srcmatch then
      match msMatchselectWindows starttime endtime s.timewindows with
      | some ws => some (ws, rest)
      | none => ms_matchselect starttime endtime rest
    else ms_matchselect starttime endtime rest

/-- The inner `while (selecttime)` loop of `findselectlimits`: windows
not overlapping the record are skipped (the two `continue` tests);
otherwise `selectstart` is lowered to the window's start and
`selectend` raised to its end; when the record lies fully inside the
accumulated bound the function returns early (`true`). -/
def selecttimeLoop (starttime endtime : Hptime) :
    List SelectTime → Record → Record × Bool
  | [], rec => (rec, false)
  | w :: ws, rec =>
    if starttime < w.starttime ∧ ¬(starttime ≤ w.starttime ∧ endtime ≥ w.starttime) then
      selecttimeLoop starttime endtime ws rec
    else if endtime > w.endtime ∧ ¬(starttime ≤ w.endtime ∧ endtime ≥ w.endtime) then
      selecttimeLoop starttime endtime ws rec
    else
      let ssv := match rec.selectstart with
        | none => w.starttime
        | some s => if s > w.starttime then w.starttime else s
      let sev := match rec.selectend with
        | none => w.endtime
        | some e => if e < w.endtime then w.endtime else e
      let rec1 : Record := { rec with selectstart := some ssv, selectend := some sev }
      if rec.starttime ≥ ssv ∧ rec.endtime ≤ sev then (rec1, true)
      else selecttimeLoop starttime endtime ws rec1

/-- `findselectlimits` of dataselect.c: determine joint selection
limits for a record from all matching selection entries.  The C loop
`while (select = ms_matchselect(select, ...))` advances to the next
source-matching entry with an overlapping window and resumes from
`select->next`; this is inlined here as a walk over the selections,
where a non-matching entry (wrong source, or no overlapping window,
i.e. `msMatchselectWindows = none`) is passed over, exactly as
`ms_matchselect` would skip it. -/
def findselectlimits : List Selections → Hptime → Hptime → Record → Record
  | [], _, _, rec => rec
  | s :: rest, starttime, endtime, rec =>
    if s.srcmatch then
      match msMatchselectWindows starttime endtime s.timewindows with
      | some ws =>
        match selecttimeLoop starttime endtime ws rec with
        | (rec1, true) => rec1
        | (rec1, false) => findselectlimits rest starttime endtime rec1
      | none => findselectlimits rest starttime endtime rec
    else findselectlimits rest starttime endtime rec

/-- The flat, in-order list of selection windows that both belong to a
source-matching entry and overlap the record.  Used by the reference
characterisation of `findselectlimits`. -/
def matchingWindows (starttime endtime : Hptime) (sels : List Selections) :
    List SelectTime :=
  (sels.filter (fun s => s.srcmatch)).flatMap
    (fun s => s.timewindows.filter (overlapswindow starttime endtime))

/-- Reference definition (amended-claim semantics): the stored
SelectBound is the envelope of the matching windows processed in order
— `selectstart` is lowered to each window's start and `selectend`
raised to each window's end — stopping early once the record lies
inside the bound.  Nothing is ever cleared. -/
def selectBoundEnvelope : List SelectTime → Record → Record
  | [], rec => rec
  | w :: ws, rec =>
    let ssv := match rec.selectstart with
      | none => w.starttime
      | some s => if s > w.starttime then w.starttime else s
    let sev := match rec.selectend with
      | none => w.endtime
      | some e => if e < w.endtime then w.endtime else e
    let rec1 : Record := { rec with selectstart := some ssv, selectend := some sev }
    if rec.starttime ≥ ssv ∧ rec.endtime ≤ sev then rec1
    else selectBoundEnvelope ws rec1

/-! ### Coverage and pruning (`findcoverage`, `trimtrace`) -/

/-- A coverage entry (an `MSTrace` of the sparse coverage
`MSTraceGroup` built by `findcoverage`): one contiguous interval of
higher-priority data.  Quality and sample rate are stored by the C
code but never read back by `trimtrace`, so only the interval is
modelled. -/
structure MSTrace where
  starttime : Hptime
  endtime : Hptime
  deriving Repr, DecidableEq

/-- A trace segment (`MSTraceSeg` of libmseed) with its `RecordMap`
(the `prvtptr` record list). -/
structure MSTraceSeg where
  starttime : Hptime
  endtime : Hptime
  samprate : ℚ
  recs : List Record
  deriving Repr, DecidableEq

/-- A trace identifier (`MSTraceID` of libmseed): network / station /
location / channel codes, the quality code, and the time-ordered
segment list. -/
structure MSTraceID where
  network : String
  station : String
  location : String
  channel : String
  dataquality : Char
  segs : List MSTraceSeg
  deriving Repr, DecidableEq

/-- The trace list: `MSTraceID`s in list order. -/
abbrev MSTraceList := List MSTraceID

/-- `hpdelta`: the sample period in time ticks,
`(hptime_t)(HPTMODULUS / samprate)` when the sample rate is nonzero,
else 0.  `HPTMODULUS / samprate` is written on the numerator and
denominator of the rational sample rate:
`⌊HPTMODULUS / (num/den)⌋ = (HPTMODULUS * den) / num` (floor division;
equal to the C truncation for the positive sample rates that occur). -/
def hpdeltaOf (samprate : ℚ) : Hptime :=
  if samprate.num ≠ 0 then (HPTMODULUS * (samprate.den : Int)) / samprate.num else 0

/-- `hptimetol`: the time tolerance in ticks — half a sample period
when the `-tt` option is unset (C sentinel `-1`), else
`(hptime_t)(HPTMODULUS * timetol)`, written on the numerator and
denominator: `⌊HPTMODULUS * (num/den)⌋ = (HPTMODULUS * num) / den`
(floor division; equal to the C truncation for nonnegative
tolerances). -/
def hptimetolOf (cfg : Config) (hpdelta : Hptime) : Hptime :=
  match cfg.timetol with
  | none => hpdelta / 2
  | some t => (HPTMODULUS * t.num) / (t.den : Int)

/-- libmseed `MS_ISRATETOLERABLE (A, B)`: relative sample-rate
difference below `0.0001`, i.e. `|1 - a/b| < 1/10000`.  Multiplying
through by the positive `10000 * |b| * a.den * b.den` gives the
equivalent integer inequality
`10000 * |b.num * a.den - a.num * b.den| < |b.num| * a.den`. -/
def ms_isratetolerable (a b : ℚ) : Bool :=
  decide (10000 * ((b.num * (a.den : Int) - a.num * (b.den : Int)).natAbs) <
    b.num.natAbs * a.den)

/-- The effective record start time used by `trimtrace` for
comparisons: TrimBound applied, then the selection start when
stricter. -/
def effSelStart (rec : Record) : Hptime :=
  let es := rec.newstart.getD rec.starttime
  match rec.selectstart with
  | some s => if s > es then s else es
  | none => es

/-- The effective record end time used by `trimtrace` for comparisons:
TrimBound applied, then the selection end when stricter. -/
def effSelEnd (rec : Record) : Hptime :=
  let ee := rec.newend.getD rec.endtime
  match rec.selectend with
  | some e => if e < ee then e else ee
  | none => ee

/-- The left-overlap step of `trimtrace`'s sample-level pruning: when
the record's effective interval overlaps the beginning of the coverage
entry, set `newend := cmst.starttime - hpdelta + hptimetol`; when that
bound falls before the global start time the record is removed
instead, otherwise the running effective end time becomes the new
bound.  Returns the record and the running effective end time. -/
def trimStepLeft (cfg : Config) (hpdelta hptimetol : Hptime) (cmst : MSTrace)
    (effstarttime effendtime : Hptime) (rec1 : Record) : Record × Hptime :=
  if effstarttime < cmst.starttime ∧ effendtime + hptimetol ≥ cmst.starttime then
    let newendv := cmst.starttime - hpdelta + hptimetol
    let recA : Record := { rec1 with newend := some newendv }
    match cfg.starttime with
    | some gs =>
      if newendv < gs then ({ recA with reclen := 0 }, effendtime)
      else (recA, newendv)
    | none => (recA, newendv)
  else (rec1, effendtime)

/-- The right-overlap step, symmetric to `trimStepLeft`: set
`newstart := cmst.endtime + hpdelta - hptimetol`, removing the record
instead when the bound passes the global end time.  Returns the record
and the running effective start time. -/
def trimStepRight (cfg : Config) (hpdelta hptimetol : Hptime) (cmst : MSTrace)
    (effstarttime effendtime2 : Hptime) (rec2 : Record) : Record × Hptime :=
  if effstarttime - hptimetol ≤ cmst.endtime ∧ effendtime2 > cmst.endtime then
    let newstartv := cmst.endtime + hpdelta - hptimetol
    let recB : Record := { rec2 with newstart := some newstartv }
    match cfg.endtime with
    | some ge =>
      if newstartv > ge then ({ recB with reclen := 0 }, effstarttime)
      else (recB, newstartv)
    | none => (recB, newstartv)
  else (rec2, effstarttime)

/-- The body of `trimtrace`'s inner loop for one record against one
coverage entry `cmst`:
* Phase A removes the record (`reclen := 0`) when its effective
  interval is inside the entry expanded by `±hptimetol`;
* under sample-level pruning (`prunedata = 's'`), the left- and
  right-overlap steps run in sequence (the right step seeing the end
  time updated by the left step), and a record whose effective
  interval collapsed within the tolerance is removed unless it is the
  degenerate zero-duration record that was not trimmed. -/
def trimStep (cfg : Config) (hpdelta hptimetol : Hptime) (cmst : MSTrace)
    (rec : Record) : Record :=
  let effstarttime := effSelStart rec
  let effendtime := effSelEnd rec
  let rec1 := if effstarttime ≥ cmst.starttime - hptimetol ∧
      effendtime ≤ cmst.endtime + hptimetol then { rec with reclen := 0 } else rec
  if cfg.prunedata = 's' ∧ rec1.reclen ≠ 0 then
    let leftres := trimStepLeft cfg hpdelta hptimetol cmst effstarttime effendtime rec1
    let rightres := trimStepRight cfg hpdelta hptimetol cmst effstarttime
      leftres.2 leftres.1
    if rightres.2 ≥ leftres.2 - hptimetol ∧
        ¬(rec.starttime = rec.endtime ∧ rec.starttime = rightres.2 ∧
          rec.endtime = leftres.2) then
      { rightres.1 with reclen := 0 }
    else rightres.1
  else rec1

/-- `trimtrace`'s walk of one record over the coverage entries: a
record marked non-contributing is not consulted again (the
`if (!rec->reclen) break` at the top of the inner loop). -/
def trimtraceRec (cfg : Config) (hpdelta hptimetol : Hptime) :
    List MSTrace → Record → Record
  | [], rec => rec
  | cmst :: rest, rec =>
    if rec.reclen = 0 then rec
    else trimtraceRec cfg hpdelta hptimetol rest (trimStep cfg hpdelta hptimetol cmst rec)

/-- `trimtrace` of dataselect.c: adjust every record of the target
segment against the coverage (the returned modification count is
bookkeeping only and is not modelled). -/
def trimtrace (cfg : Config) (targetseg : MSTraceSeg) (coverage : List MSTrace) :
    MSTraceSeg :=
  let hpdelta := hpdeltaOf targetseg.samprate
  let hptimetol := hptimetolOf cfg hpdelta
  { targetseg with
      recs := targetseg.recs.map (trimtraceRec cfg hpdelta hptimetol coverage) }

/-- The record walk of `findcoverage` over one qualifying peer
segment's `RecordMap`: contributing records extend the current
coverage entry when contiguous within the tolerance
(`|cmst.endtime + hpdelta - effstarttime| ≤ hptimetol`), else start a
new entry; `newsegment` is true on entry to each segment's walk. -/
def covFromRecords (hpdelta hptimetol : Hptime) :
    List Record → List MSTrace → Bool → List MSTrace
  | [], covs, _ => covs
  | rec :: rest, covs, newsegment =>
    if rec.reclen = 0 then covFromRecords hpdelta hptimetol rest covs newsegment
    else
      let effstarttime := rec.newstart.getD rec.starttime
      let effendtime := rec.newend.getD rec.endtime
      match covs.getLast? with
      | some cmst =>
        if newsegment ∨ |cmst.endtime + hpdelta - effstarttime| > hptimetol then
          covFromRecords hpdelta hptimetol rest
            (covs ++ [{ starttime := effstarttime, endtime := effendtime }]) false
        else
          covFromRecords hpdelta hptimetol rest
            (covs.dropLast ++ [{ cmst with endtime := effendtime }]) false
      | none =>
        covFromRecords hpdelta hptimetol rest
          (covs ++ [{ starttime := effstarttime, endtime := effendtime }]) false

/-- The segment walk of `findcoverage` for one `MSTraceID` (indexed
segments; `isTarget` recognises the target segment): skip the target,
stop at the first segment past `target.endtime + hptimetol`, skip
zero- or intolerable-rate segments and segments contained in the last
coverage entry produced for this ID (`prevcmst`), and for overlapping
segments of higher priority (quality first when `bestquality`, then
the longer interval, peers winning ties) add their records'
coverage. -/
def covFromSegs (cfg : Config) (targetquality : Char) (targetseg : MSTraceSeg)
    (idquality : Char) (hpdelta hptimetol : Hptime) (isTarget : Nat → Bool) :
    List (Nat × MSTraceSeg) → List MSTrace → Bool → List MSTrace
  | [], covs, _ => covs
  | (j, seg) :: rest, covs, prevset =>
    if isTarget j then
      covFromSegs cfg targetquality targetseg idquality hpdelta hptimetol isTarget
        rest covs prevset
    else if targetseg.endtime + hptimetol < seg.starttime then covs
    else if seg.samprate.num = 0 then
      covFromSegs cfg targetquality targetseg idquality hpdelta hptimetol isTarget
        rest covs prevset
    else if ¬ ms_isratetolerable seg.samprate targetseg.samprate then
      covFromSegs cfg targetquality targetseg idquality hpdelta hptimetol isTarget
        rest covs prevset
    else if prevset && (match covs.getLast? with
        | some prevcmst =>
          decide (seg.starttime ≥ prevcmst.starttime ∧ seg.endtime ≤ prevcmst.endtime)
        | none => false) then
      covFromSegs cfg targetquality targetseg idquality hpdelta hptimetol isTarget
        rest covs prevset
    else if targetseg.endtime + hptimetol ≥ seg.starttime ∧
        targetseg.starttime - hptimetol ≤ seg.endtime then
      let priority0 := if cfg.bestquality then qcompare idquality targetquality else 0
      let priority := if priority0 = 0 then
          (if seg.endtime - seg.starttime ≥ targetseg.endtime - targetseg.starttime
            then -1 else 1)
        else priority0
      if priority = -1 then
        let covs2 := covFromRecords hpdelta hptimetol seg.recs covs true
        covFromSegs cfg targetquality targetseg idquality hpdelta hptimetol isTarget
          rest covs2 (prevset ∨ covs2.length > covs.length)
      else
        covFromSegs cfg targetquality targetseg idquality hpdelta hptimetol isTarget
          rest covs prevset
    else
      covFromSegs cfg targetquality targetseg idquality hpdelta hptimetol isTarget
        rest covs prevset

/-- `findcoverage` of dataselect.c: derive, from the records of
higher-priority overlapping peer segments, the coverage entries
dominating the target segment `(ti, si)`.  Peer IDs must share
NSLC codes with the target's ID; `prevcmst` resets per ID. -/
def findcoverage (cfg : Config) (mstl : MSTraceList) (ti si : Nat) : List MSTrace :=
  match mstl.get? ti with
  | none => []
  | some targetid =>
    match targetid.segs.get? si with
    | none => []
    | some targetseg =>
      let hpdelta := hpdeltaOf targetseg.samprate
      let hptimetol := hptimetolOf cfg hpdelta
      mstl.enum.foldl (fun covs p =>
        let i := p.1
        let id := p.2
        if i ≠ ti ∧ (id.network ≠ targetid.network ∨ id.station ≠ targetid.station ∨
            id.location ≠ targetid.location ∨ id.channel ≠ targetid.channel) then covs
        else
          covFromSegs cfg targetid.dataquality targetseg id.dataquality hpdelta
            hptimetol (fun j => decide (i = ti ∧ j = si)) id.segs.enum covs false) []

/-- One step of `prunetraces`: compute the coverage for segment
`(i, j)` and, when nonempty, trim that segment's records in place. -/
def pruneSegAt (cfg : Config) (mstl : MSTraceList) (i j : Nat) : MSTraceList :=
  match mstl.get? i with
  | none => mstl
  | some id =>
    match id.segs.get? j with
    | none => mstl
    | some seg =>
      let coverage := findcoverage cfg mstl i j
      if coverage.isEmpty then mstl
      else mstl.set i { id with segs := id.segs.set j (trimtrace cfg seg coverage) }

/-- `prunetraces` of dataselect.c: walk every `(id, segment)` pair in
list order, pruning each against the coverage of its higher-priority
peers; earlier trims influence later coverage computations. -/
def prunetraces (cfg : Config) (mstl : MSTraceList) : MSTraceList :=
  (List.range mstl.length).foldl (fun acc i =>
    (List.range (match acc.get? i with
      | some id => id.segs.length
      | none => 0)).foldl (fun acc2 j => pruneSegAt cfg acc2 i j) acc) mstl

/-! ### Reconciling segment times (`reconcile_tracetimes`) -/

/-- The forward walk for the first record with `reclen > 0` (the C
loop from `recmap->first` via `next`). -/
def firstContributing : List Record → Option Record
  | [] => none
  | rec :: rest => if rec.reclen > 0 then some rec else firstContributing rest

/-- The backward walk for the last record with `reclen > 0` (the C
loop from `recmap->last` via `prev`). -/
def lastContributing (recs : List Record) : Option Record :=
  firstContributing recs.reverse

/-- `reconcile_tracetimes` on one segment: set the segment start time
from the first contributing record (its `newstart` when set and sane,
i.e. greater than the record's start time, else its start time) and
the end time symmetrically from the last contributing record. -/
def reconcileTracetimesSeg (seg : MSTraceSeg) : MSTraceSeg :=
  let seg1 := match firstContributing seg.recs with
    | some first =>
      { seg with starttime :=
          match first.newstart with
          | some ns => if ns > first.starttime then ns else first.starttime
          | none => first.starttime }
    | none => seg
  match lastContributing seg.recs with
  | some last =>
    { seg1 with endtime :=
        match last.newend with
        | some ne => if ne < last.endtime then ne else last.endtime
        | none => last.endtime }
  | none => seg1

/-- `reconcile_tracetimes` of dataselect.c over the whole trace list. -/
def reconcile_tracetimes (mstl : MSTraceList) : MSTraceList :=
  mstl.map (fun id => { id with segs := id.segs.map reconcileTracetimesSeg })

/-! ### Boundary splitting (`readfiles`) -/

/-- The `-Sd` / `-Sh` / `-Sm` split granularities. -/
inductive SplitBoundary where
  | day
  | hour
  | minute
  deriving Repr, DecidableEq

/-- Length of one split period in time ticks. -/
def boundaryPeriod : SplitBoundary → Hptime
  | .day => 86400 * HPTMODULUS
  | .hour => 3600 * HPTMODULUS
  | .minute => 60 * HPTMODULUS

/-- The next split boundary strictly after `t`: the C code converts to
broken-down time, increments the day/hour/minute and zeroes the finer
fields; on the leap-second-free `hptime_t` timeline this is rounding
down to the granularity plus one period. -/
def nextBoundary (sb : SplitBoundary) (t : Hptime) : Hptime :=
  (t / boundaryPeriod sb + 1) * boundaryPeriod sb

/-- The boundary-splitting loop of `readfiles`: while the record ends
at or past the next boundary after its effective start, emit a Record
with `newend = boundary - 1` and continue with a copy whose
`newstart = boundary`. -/
def splitOnBoundary (sb : SplitBoundary) (rec : Record) : List Record :=
  if hge : rec.endtime ≥ nextBoundary sb (rec.newstart.getD rec.starttime) then
    { rec with newend := some (nextBoundary sb (rec.newstart.getD rec.starttime) - 1) } ::
      splitOnBoundary sb
        { rec with newstart := some (nextBoundary sb (rec.newstart.getD rec.starttime)) }
  else [rec]
  termination_by (rec.endtime - rec.newstart.getD rec.starttime).toNat
  decreasing_by
    have hP : 0 < boundaryPeriod sb := by cases sb <;> decide
    have hlt : rec.newstart.getD rec.starttime <
        nextBoundary sb (rec.newstart.getD rec.starttime) := by
      unfold nextBoundary
      exact Int.lt_ediv_add_one_mul_self _ hP
    simp only [Option.getD_some]
    have h1 : rec.endtime - nextBoundary sb (rec.newstart.getD rec.starttime) <
        rec.endtime - rec.newstart.getD rec.starttime := by linarith
    have h2 : (0 : Int) < rec.endtime - rec.newstart.getD rec.starttime := by linarith
    exact (Int.toNat_lt_toNat h2).mpr h1

/-! ### Record trimming and the write loop (`trimrecord`, `writetraces`)

The record codec is external: whether `msr_unpack` succeeds, the
parsed header fields, and the bytes `msr_pack` would produce are
oracle inputs carried per record on `WRecord`. -/

/-- libmseed data-encoding codes. -/
def DE_ASCII : Nat := 0

def DE_INT16 : Nat := 1

def DE_INT32 : Nat := 3

def DE_FLOAT32 : Nat := 4

def DE_FLOAT64 : Nat := 5

def DE_STEIM1 : Nat := 10

def DE_STEIM2 : Nat := 11

/-- The writer's view of one record: the `Record` metadata, the raw
record bytes at its file offset (`content`), whether it sits in the
`-sb` staging buffer (`stageoffset >= 0`), and the codec oracle:
whether unpacking succeeds, the blockette-1000 presence, the data
encoding, the sample count and rate, and the bytes a repack would
produce. -/
structure WRecord where
  record : Record
  content : List Nat
  staged : Bool := false
  unpackok : Bool := true
  hasBlkt1000 : Bool := true
  encoding : Nat := DE_STEIM2
  samplecnt : Nat := 0
  samprate : ℚ := 0
  packedcontent : List Nat := []
  deriving Repr, DecidableEq

/-- Result of `trimrecord`: `.skip` is the C return `-1` (sanity
failure or all samples trimmed), `.unpackerr` is `-2` (codec cannot
unpack), `.ok packed` is `0`, where `packed = some bytes` when the
record was repacked into the global record buffer and `none` when
trimming was skipped (unsupported encoding / missing blockette 1000)
and the buffer was left untouched. -/
inductive TrimResult where
  | skip
  | unpackerr
  | ok (packed : Option (List Nat))
  deriving Repr, DecidableEq

/-- The sanity test at the top of `trimrecord`: inverted or
out-of-range new start/end bound times. -/
def trimBoundsBad (rec : Record) : Bool :=
  (match rec.newstart, rec.newend with
    | some ns, some ne => decide (ns > ne)
    | _, _ => false) ||
  (match rec.newstart with
    | some ns => decide (ns < rec.starttime) || decide (ns > rec.endtime)
    | none => false) ||
  (match rec.newend with
    | some ne => decide (ne > rec.endtime) || decide (ne < rec.starttime)
    | none => false)

/-- The front-trim loop of `trimrecord`: count samples while the
running start time is before `newstart`, at most `samplecnt` many. -/
def fronttrimsamples (hpdelta starttime newstart : Hptime) : Nat → Nat
  | 0 => 0
  | n + 1 =>
    if starttime < newstart then
      1 + fronttrimsamples hpdelta (starttime + hpdelta) newstart n
    else 0

/-- The back-trim loop of `trimrecord`: count samples while the
running end time is after `newend`, at most `samplecnt` many. -/
def backtrimsamples (hpdelta endtime newend : Hptime) : Nat → Nat
  | 0 => 0
  | n + 1 =>
    if endtime > newend then
      1 + backtrimsamples hpdelta (endtime - hpdelta) newend n
    else 0

/-- The front-trim phase: when `newstart` is set and the sample period
is nonzero, drop the counted samples (skipping the record when all
would be dropped) and advance the record start time. -/
def trimrecordFront (w : WRecord) (hpdelta : Hptime) : Option (Record × Nat) :=
  match w.record.newstart with
  | some ns =>
    if hpdelta ≠ 0 then
      let f := fronttrimsamples hpdelta w.record.starttime ns w.samplecnt
      if f ≥ w.samplecnt then none
      else some ({ w.record with starttime := w.record.starttime + hpdelta * f },
        w.samplecnt - f)
    else some (w.record, w.samplecnt)
  | none => some (w.record, w.samplecnt)

/-- The back-trim phase and repack: symmetric to the front trim; on
success the codec's packed bytes go to the global record buffer. -/
def trimrecordBack (w : WRecord) (hpdelta : Hptime) :
    Option (Record × Nat) → TrimResult × Record
  | none => (.skip, w.record)
  | some (rec1, cnt1) =>
    match rec1.newend with
    | some ne =>
      if hpdelta ≠ 0 then
        let b := backtrimsamples hpdelta rec1.endtime ne cnt1
        if b ≥ cnt1 then (.skip, w.record)
        else (.ok (some w.packedcontent),
          { rec1 with endtime := rec1.endtime - hpdelta * b })
      else (.ok (some w.packedcontent), rec1)
    | none => (.ok (some w.packedcontent), rec1)

/-- `trimrecord` of dataselect.c: sanity-check the bound times, unpack
the header (codec oracle), skip the trim but report success on a
missing blockette 1000 or an encoding outside
{int16, int32, float32, float64, Steim1, Steim2}, else trim samples
from the front and back and repack. -/
def trimrecord (w : WRecord) : TrimResult × Record :=
  if trimBoundsBad w.record then (.skip, w.record)
  else if ¬ w.unpackok then (.unpackerr, w.record)
  else if ¬ w.hasBlkt1000 ∨ (w.encoding ≠ DE_INT16 ∧ w.encoding ≠ DE_INT32 ∧
      w.encoding ≠ DE_FLOAT32 ∧ w.encoding ≠ DE_FLOAT64 ∧
      w.encoding ≠ DE_STEIM1 ∧ w.encoding ≠ DE_STEIM2) then
    (.ok none, w.record)
  else
    let hpdelta := hpdeltaOf w.samprate
    trimrecordBack w hpdelta (trimrecordFront w hpdelta)

/-- The sort applied to each ID-level write list before emitting, when
overlaps were pruned (`prunedata` is `'r'` or `'s'`): `sortrecmap`
keyed on the effective start time of the inner record. -/
def sortGroup (cfg : Config) (g : List WRecord) : List WRecord :=
  if cfg.prunedata = 'r' ∨ cfg.prunedata = 's' then
    (if g.isEmpty then g else sortLoopBy (fun w => effStart w.record) 1 g)
  else g

/-- The per-record emit loop of `writetraces` over one ID-level write
list.  State: the collected outputs and the global record buffer.
Each record's bytes come from the staging buffer when staged, else
they are read into the global buffer; a record with trim bounds goes
through `trimrecord` — on `.skip` it is dropped, on `.unpackerr` the
loop stops with `errflag = 2` (skipping the rest of the ID), and on
`.ok` the record pointer is redirected to the global buffer before
emitting.  Returns (outputs, errflag, record buffer). -/
def writeRecords (cfg : Config) :
    List WRecord → List (List Nat) → List Nat → List (List Nat) × Int × List Nat
  | [], out, recordbuf => (out, 0, recordbuf)
  | w :: rest, out, recordbuf =>
    let recordbuf1 := if w.staged then recordbuf else w.content
    let recordptr := if w.staged then w.content else recordbuf1
    if w.record.newstart.isSome ∨ w.record.newend.isSome then
      match trimrecord w with
      | (.skip, _) => writeRecords cfg rest out recordbuf1
      | (.unpackerr, _) => (out, 2, recordbuf1)
      | (.ok packed, _) =>
        let recordbuf2 := match packed with
          | some p => p
          | none => recordbuf1
        writeRecords cfg rest (out ++ [recordbuf2]) recordbuf2
    else writeRecords cfg rest (out ++ [recordptr]) recordbuf1

/-- The outer write loop of `writetraces` over the ID-level write
lists: each group is sorted (when pruning was active) and emitted; an
`errflag = 2` from a group (codec error during trim) is reset at the
next group, so processing continues with the next source ID. -/
def writetracesGo (cfg : Config) :
    List (List WRecord) → List (List Nat) → List Nat → List (List Nat)
  | [], out, _ => out
  | g :: gs, out, recordbuf =>
    let res := writeRecords cfg (sortGroup cfg g) [] recordbuf
    writetracesGo cfg gs (out ++ res.1) res.2.2

/-- `writetraces` of dataselect.c, reduced to its observable output:
the sequence of byte buffers written to the output sink.  The global
record buffer starts out empty (the C static buffer is
zero-initialised). -/
def writetraces (cfg : Config) (groups : List (List WRecord)) : List (List Nat) :=
  writetracesGo cfg groups [] []

/-! ### Concrete inputs used by the counterexamples and witnesses -/

/-- Configuration with sample-level pruning (`-Ps`) and defaults
otherwise. -/
def cfgPs : Config := { prunedata := 's' }

/-- Scenario "sample-level trim of left overlap" (spec §8 scenario 2):
R1 covers 00:00:00–00:00:09.99 (1000 samples at 100 Hz). -/
def recR1 : Record := { reclen := 512, starttime := 0, endtime := 9990000 }

/-- Scenario record R2: 00:00:05–00:00:14.99 (1000 samples at 100 Hz). -/
def recR2 : Record := { reclen := 512, starttime := 5000000, endtime := 14990000 }

/-- R1's segment. -/
def segR1 : MSTraceSeg :=
  { starttime := 0, endtime := 9990000, samprate := 100, recs := [recR1] }

/-- R2's segment. -/
def segR2 : MSTraceSeg :=
  { starttime := 5000000, endtime := 14990000, samprate := 100, recs := [recR2] }

/-- The single channel holding both overlapping segments. -/
def idR12 : MSTraceID :=
  { network := "NT", station := "STA", location := "", channel := "BHZ",
    dataquality := 'D', segs := [segR1, segR2] }

/-- The trace list of the scenario. -/
def mstlR12 : MSTraceList := [idR12]

/-- A record partially covered by two disjoint selection windows. -/
def recSel : Record := { reclen := 512, starttime := 10, endtime := 20 }

/-- One matching selections entry with two disjoint windows, [0,12] and
[18,25], both overlapping the record [10,20]. -/
def selsDisjoint : List Selections :=
  [{ srcmatch := true, timewindows := [{ starttime := 0, endtime := 12 },
      { starttime := 18, endtime := 25 }] }]

/-- A writer record with trim bounds whose unpack fails (the codec
error oracle). -/
def wUnpackFail : WRecord :=
  { record := { reclen := 512, starttime := 0, endtime := 1000000,
                newstart := some 500000 },
    content := [7, 7, 7], unpackok := false, encoding := DE_STEIM1,
    samplecnt := 100, samprate := 100, packedcontent := [8, 8] }

/-- A plain writer record without trim bounds (bytes [1,2,3]). -/
def wPlain : WRecord :=
  { record := { reclen := 512, starttime := 0, endtime := 1000000 },
    content := [1, 2, 3], encoding := DE_STEIM2, samplecnt := 100,
    samprate := 100 }

/-- A staged writer record with a trim bound and ASCII (unsupported)
encoding: `trimrecord` skips the trim with success, yet the write loop
redirects the record pointer to the stale global buffer. -/
def wStagedAscii : WRecord :=
  { record := { reclen := 512, starttime := 2000000, endtime := 3000000,
                newstart := some 2500000 },
    content := [9, 9, 9], staged := true, encoding := DE_ASCII,
    samplecnt := 100, samprate := 100, packedcontent := [4, 4] }

/-- A contributing record with sane trim bounds, for the reconciler
witness. -/
def recMid : Record :=
  { reclen := 512, starttime := 5, endtime := 20, newstart := some 7,
    newend := some 18 }

/-- A non-contributing record preceding it. -/
def recZero : Record :=
  { reclen := 0, starttime := 0, endtime := 10, newstart := some 99 }

/-- A segment whose only contributing record is `recMid`. -/
def segRecon : MSTraceSeg :=
  { starttime := 0, endtime := 100, samprate := 100, recs := [recZero, recMid] }

/-- A one-minute-crossing record (00:00:30 to 00:01:30), for the split
witness. -/
def recSplit : Record := { reclen := 512, starttime := 30000000, endtime := 90000000 }

/-- A record straddling the start of a coverage entry within the time
tolerance: Phase A of the Pruner removes it whole. -/
def recPhaseA : Record := { reclen := 512, starttime := 97, endtime := 203 }

/-- The coverage entry [100, 200] used with `recPhaseA`. -/
def covPhaseA : MSTrace := { starttime := 100, endtime := 200 }

/-- Sample-level pruning with a global start time of 150 ticks. -/
def cfgPsTs : Config := { prunedata := 's', starttime := some 150 }

/-- A record overlapping the beginning of `covPhaseA` whose trimmed
end bound falls before the global start time of `cfgPsTs`. -/
def recLeftOverlap : Record := { reclen := 512, starttime := 0, endtime := 203 }
/-- For distinct codes with at least one outside {R,D,Q,M}, `qcompare`
falls through every branch and returns -1. -/
lemma qcompare_nonstandard {q1 q2 : Char} (hne : q1 ≠ q2)
    (h : q1 ∉ standardQualities ∨ q2 ∉ standardQualities) :
    qcompare q1 q2 = -1 := by
  have h' : ¬(q1 ∈ standardQualities ∧ q2 ∈ standardQualities) := by
    rcases h with h | h <;> intro hc <;> exact h (by tauto)
  simp only [standardQualities, List.mem_cons, List.not_mem_nil, or_false] at h'
  unfold qcompare
  split_ifs with h1 h2 h3 h4
  · exact absurd h1 hne
  · exact absurd ⟨Or.inl h2.1, by rcases h2.2 with h | h | h <;> simp [h]⟩ h'
  · exact absurd ⟨by simp [h3.1], by rcases h3.2 with h | h <;> simp [h]⟩ h'
  · exact absurd ⟨by simp [h4.1], by simp [h4.2]⟩ h'
  · rfl

/-- The merge of two chunks is a permutation of their concatenation. -/
lemma mergeBy_perm (key : α → Int) (ps qs : List α) :
    mergeBy key ps qs ~ ps ++ qs := by
  induction ps, qs using mergeBy.induct key with
  | case1 qs => simp [mergeBy]
  | case2 ps h => cases ps <;> simp [mergeBy]
  | case3 p ps q qs hlt ih =>
    rw [mergeBy, if_pos hlt]
    exact (ih.cons q).trans List.perm_middle.symm
  | case4 p ps q qs hlt ih =>
    rw [mergeBy, if_neg hlt]
    exact ih.cons p

/-- The merge of two chunks has the combined length. -/
lemma mergeBy_length (key : α → Int) (ps qs : List α) :
    (mergeBy key ps qs).length = ps.length + qs.length := by
  simpa using (mergeBy_perm key ps qs).length_eq

lemma mem_mergeBy {key : α → Int} {ps qs : List α} {x : α} :
    x ∈ mergeBy key ps qs ↔ x ∈ ps ∨ x ∈ qs := by
  rw [(mergeBy_perm key ps qs).mem_iff, List.mem_append]

/-- Merging two key-sorted chunks yields a key-sorted chunk. -/
lemma mergeBy_sorted {key : α → Int} {ps qs : List α}
    (hp : ps.Pairwise (fun a b => key a ≤ key b))
    (hq : qs.Pairwise (fun a b => key a ≤ key b)) :
    (mergeBy key ps qs).Pairwise (fun a b => key a ≤ key b) := by
  induction ps, qs using mergeBy.induct key with
  | case1 qs => simpa [mergeBy] using hq
  | case2 ps h =>
    cases ps
    · simp [mergeBy]
    · simpa [mergeBy] using hp
  | case3 p ps q qs hlt ih =>
    rw [mergeBy, if_pos hlt]
    rw [List.pairwise_cons] at hq ⊢
    refine ⟨?_, ih hp hq.2⟩
    intro x hx
    rcases mem_mergeBy.1 hx with hx | hx
    · rcases List.mem_cons.1 hx with rfl | hx
      · omega
      · have := List.rel_of_pairwise_cons hp hx
        omega
    · exact hq.1 x hx
  | case4 p ps q qs hlt ih =>
    rw [mergeBy, if_neg hlt]
    rw [List.pairwise_cons] at hp ⊢
    refine ⟨?_, ih hp.2 hq⟩
    intro x hx
    rcases mem_mergeBy.1 hx with hx | hx
    · exact hp.1 x hx
    · rcases List.mem_cons.1 hx with rfl | hx
      · omega
      · have := List.rel_of_pairwise_cons hq hx
        omega

/-- Stability of the merge: since ties are taken from the left chunk,
the elements with any given key value appear as those of the left chunk
followed by those of the right chunk (the left chunk being sorted). -/
lemma mergeBy_filter {key : α → Int} (k : Int) {ps qs : List α}
    (hp : ps.Pairwise (fun a b => key a ≤ key b)) :
    (mergeBy key ps qs).filter (fun x => key x == k) =
      ps.filter (fun x => key x == k) ++ qs.filter (fun x => key x == k) := by
  induction ps, qs using mergeBy.induct key with
  | case1 qs => simp [mergeBy]
  | case2 ps h => cases ps <;> simp [mergeBy]
  | case3 p ps q qs hlt ih =>
    rw [mergeBy, if_pos hlt]
    by_cases hqk : key q == k
    · have hqk' : key q = k := by simpa using hqk
      have hnil : (p :: ps).filter (fun x => key x == k) = [] := by
        apply List.filter_eq_nil_iff.2
        intro x hx
        rcases List.mem_cons.1 hx with rfl | hx
        · simp only [beq_iff_eq]
          omega
        · have := List.rel_of_pairwise_cons hp hx
          simp only [beq_iff_eq]
          omega
      simp [List.filter_cons, hqk, ih hp, hnil]
    · simp [List.filter_cons, hqk, ih hp]
  | case4 p ps q qs hlt ih =>
    rw [mergeBy, if_neg hlt]
    have hp' := (List.pairwise_cons.1 hp).2
    by_cases hpk : key p == k
    · simp [List.filter_cons, hpk, ih hp']
    · simp [List.filter_cons, hpk, ih hp']

/-- A pass keeps the list length. -/
lemma onepassBy_length (key : α → Int) (insize : Nat) (l : List α) :
    (onepassBy key insize l).length = l.length := by
  induction l using onepassBy.induct key insize with
  | case1 l h => rw [onepassBy]; simp [h]
  | case2 l h h2 =>
    rw [onepassBy]
    simp only [if_neg h, if_pos h2]
    simp [List.isEmpty_iff] at h2
    simp [h2]
  | case3 l h h2 ih =>
    rw [onepassBy]
    simp only [if_neg h, if_neg h2, List.length_append, ih]
    rw [mergeBy_length]
    simp only [List.length_take, List.length_drop]
    omega

/-- A pass permutes the list. -/
lemma onepassBy_perm (key : α → Int) (insize : Nat) (l : List α) :
    onepassBy key insize l ~ l := by
  induction l using onepassBy.induct key insize with
  | case1 l h => rw [onepassBy]; simp [h]
  | case2 l h h2 =>
    rw [onepassBy, if_neg h, if_pos h2]
    simp [List.isEmpty_iff] at h2
    simp [h2]
  | case3 l h h2 ih =>
    rw [onepassBy, if_neg h, if_neg h2]
    have step1 : mergeBy key (l.take insize) ((l.drop insize).take insize) ++
        onepassBy key insize (l.drop (insize + insize)) ~
        (l.take insize ++ (l.drop insize).take insize) ++ l.drop (insize + insize) :=
      (mergeBy_perm key _ _).append ih
    refine step1.trans (List.Perm.of_eq ?_)
    rw [List.append_assoc]
    have hdd : (l.drop insize).drop insize = l.drop (insize + insize) := by
      rw [List.drop_drop]
    rw [← hdd, List.take_append_drop, List.take_append_drop]

/-- Chunks of size 1 are always sorted. -/
lemma chunksSortedBy_one (key : α → Int) (l : List α) : ChunksSortedBy key 1 l := by
  intro i
  cases h : l.drop (1 * i) with
  | nil => simp
  | cons a t => simp [List.take_cons]

/-- The whole-list consequence: when the list fits in a single chunk it
is sorted. -/
lemma ChunksSortedBy.sorted {key : α → Int} {insize : Nat} {l : List α}
    (h : ChunksSortedBy key insize l) (hlen : l.length ≤ insize) :
    l.Pairwise (fun a b => key a ≤ key b) := by
  have := h 0
  rwa [Nat.mul_zero, List.drop_zero, List.take_of_length_le hlen] at this

/-- Chunk sortedness passes to the tail dropped by one pass step. -/
lemma ChunksSortedBy.drop2 {key : α → Int} {insize : Nat} {l : List α}
    (h : ChunksSortedBy key insize l) :
    ChunksSortedBy key insize (l.drop (insize + insize)) := by
  intro i
  rw [List.drop_drop]
  have := h (i + 2)
  have harith : insize + insize + insize * i = insize * (i + 2) := by ring
  rwa [harith]

/-- One pass merges adjacent sorted chunks: chunk sortedness at size
`insize` becomes chunk sortedness at size `insize + insize`. -/
lemma onepassBy_chunksSorted {key : α → Int} {insize : Nat} (h1 : 1 ≤ insize)
    {l : List α} (h : ChunksSortedBy key insize l) :
    ChunksSortedBy key (insize + insize) (onepassBy key insize l) := by
  induction l using onepassBy.induct key insize with
  | case1 l h0 => omega
  | case2 l h0 h2 =>
    rw [onepassBy, if_neg h0, if_pos h2]
    intro i
    simp
  | case3 l h0 h2 ih =>
    rw [onepassBy, if_neg h0, if_neg h2]
    have hc1 : (l.take insize).Pairwise (fun a b => key a ≤ key b) := by
      have := h 0
      rwa [Nat.mul_zero, List.drop_zero] at this
    have hc2 : ((l.drop insize).take insize).Pairwise (fun a b => key a ≤ key b) := by
      have := h 1
      rwa [Nat.mul_one] at this
    have hm : (mergeBy key (l.take insize) ((l.drop insize).take insize)).Pairwise
        (fun a b => key a ≤ key b) := mergeBy_sorted hc1 hc2
    have ihr := ih h.drop2
    rcases le_or_lt l.length (insize + insize) with hle | hgt
    · -- the tail is empty and the merge is the entire result
      have hdnil : l.drop (insize + insize) = [] := by
        apply List.drop_eq_nil_of_le hle
      have hrest : onepassBy key insize (l.drop (insize + insize)) = [] := by
        rw [hdnil, onepassBy]
        simp [if_neg (by omega : ¬ insize = 0)]
      rw [hrest, List.append_nil]
      intro i
      cases i with
      | zero =>
        rw [Nat.mul_zero, List.drop_zero]
        have hmlen : (mergeBy key (l.take insize) ((l.drop insize).take insize)).length ≤
            insize + insize := by
          rw [mergeBy_length]
          simp only [List.length_take, List.length_drop]
          omega
        rwa [List.take_of_length_le hmlen]
      | succ j =>
        have hmlen : (mergeBy key (l.take insize) ((l.drop insize).take insize)).length ≤
            insize + insize := by
          rw [mergeBy_length]
          simp only [List.length_take, List.length_drop]
          omega
        have : (mergeBy key (l.take insize) ((l.drop insize).take insize)).drop
            ((insize + insize) * (j + 1)) = [] := by
          apply List.drop_eq_nil_of_le
          calc (mergeBy key (l.take insize) ((l.drop insize).take insize)).length
              ≤ insize + insize := hmlen
            _ ≤ (insize + insize) * (j + 1) := by nlinarith
        rw [this]
        simp
    · -- both chunks are full, the merge is exactly the first output chunk
      have hmlen : (mergeBy key (l.take insize) ((l.drop insize).take insize)).length =
          insize + insize := by
        rw [mergeBy_length]
        simp only [List.length_take, List.length_drop]
        omega
      intro i
      cases i with
      | zero =>
        rw [Nat.mul_zero, List.drop_zero, ← hmlen, List.take_left]
        exact hm
      | succ j =>
        rw [List.drop_append_eq_append_drop]
        have hdnil : (mergeBy key (l.take insize) ((l.drop insize).take insize)).drop
            ((insize + insize) * (j + 1)) = [] := by
          apply List.drop_eq_nil_of_le
          rw [hmlen]
          nlinarith
        rw [hdnil, List.nil_append, hmlen]
        have harith : (insize + insize) * (j + 1) - (insize + insize) =
            (insize + insize) * j := by
          rw [Nat.mul_succ]
          omega
        rw [harith]
        exact ihr j

/-- A pass does not reorder records of equal key: the elements whose key
equals any fixed value `k` are preserved in order. -/
lemma onepassBy_filter {key : α → Int} {insize : Nat} (h1 : 1 ≤ insize)
    {l : List α} (h : ChunksSortedBy key insize l) (k : Int) :
    (onepassBy key insize l).filter (fun x => key x == k) =
      l.filter (fun x => key x == k) := by
  induction l using onepassBy.induct key insize with
  | case1 l h0 => omega
  | case2 l h0 h2 =>
    rw [onepassBy, if_neg h0, if_pos h2]
    simp [List.isEmpty_iff] at h2
    simp [h2]
  | case3 l h0 h2 ih =>
    rw [onepassBy, if_neg h0, if_neg h2]
    have hc1 : (l.take insize).Pairwise (fun a b => key a ≤ key b) := by
      have := h 0
      rwa [Nat.mul_zero, List.drop_zero] at this
    rw [List.filter_append, mergeBy_filter k hc1, ih h.drop2]
    have hdd : (l.drop insize).drop insize = l.drop (insize + insize) := by
      rw [List.drop_drop]
    conv_rhs => rw [← List.take_append_drop insize l]
    rw [List.filter_append]
    conv_rhs => rw [← List.take_append_drop insize (l.drop insize)]
    rw [List.filter_append, hdd, List.append_assoc]

/-- The doubling loop permutes the list. -/
lemma sortLoopBy_perm (key : α → Int) (insize : Nat) (l : List α) :
    sortLoopBy key insize l ~ l := by
  induction insize, l using sortLoopBy.induct key with
  | case1 l => rw [sortLoopBy]; simp
  | case2 insize l h0 h2 =>
    rw [sortLoopBy, if_neg h0]
    simp only [if_pos h2]
    exact onepassBy_perm key insize l
  | case3 insize l h0 h2 ih =>
    rw [sortLoopBy, if_neg h0]
    simp only [if_neg h2]
    exact ih.trans (onepassBy_perm key insize l)

/-- The doubling loop sorts a chunk-sorted list. -/
lemma sortLoopBy_sorted {key : α → Int} {insize : Nat} {l : List α}
    (h1 : 1 ≤ insize) (h : ChunksSortedBy key insize l) :
    (sortLoopBy key insize l).Pairwise (fun a b => key a ≤ key b) := by
  induction insize, l using sortLoopBy.induct key with
  | case1 l => omega
  | case2 insize l h0 h2 =>
    rw [sortLoopBy, if_neg h0]
    simp only [if_pos h2]
    refine (onepassBy_chunksSorted h1 h).sorted ?_
    rw [onepassBy_length]
    omega
  | case3 insize l h0 h2 ih =>
    rw [sortLoopBy, if_neg h0]
    simp only [if_neg h2]
    exact ih (by omega) (onepassBy_chunksSorted h1 h)

/-- The doubling loop preserves the order of equal-key elements. -/
lemma sortLoopBy_filter {key : α → Int} {insize : Nat} {l : List α}
    (h1 : 1 ≤ insize) (h : ChunksSortedBy key insize l) (k : Int) :
    (sortLoopBy key insize l).filter (fun x => key x == k) =
      l.filter (fun x => key x == k) := by
  induction insize, l using sortLoopBy.induct key with
  | case1 l => omega
  | case2 insize l h0 h2 =>
    rw [sortLoopBy, if_neg h0]
    simp only [if_pos h2]
    exact onepassBy_filter h1 h k
  | case3 insize l h0 h2 ih =>
    rw [sortLoopBy, if_neg h0]
    simp only [if_neg h2]
    rw [ih (by omega) (onepassBy_chunksSorted h1 h), onepassBy_filter h1 h k]

/-- C6: for every record list (the empty list included), `sortrecmap`
returns a permutation of its input that is in non-decreasing order of
effective start time (`newstart` when set, else `starttime`), and the
records sharing any effective start time keep their relative input
order (stability). -/
theorem sortrecmap_perm_sorted_stable (l : List Record) :
    sortrecmap l ~ l ∧
      (sortrecmap l).Pairwise (fun a b => effStart a ≤ effStart b) ∧
      ∀ k : Int, (sortrecmap l).filter (fun r => effStart r == k) =
        l.filter (fun r => effStart r == k) := by
  unfold sortrecmap
  by_cases hl : l.isEmpty
  · rw [List.isEmpty_iff] at hl
    subst hl
    simp
  · simp only [if_neg hl]
    exact ⟨sortLoopBy_perm effStart 1 l,
      sortLoopBy_sorted le_rfl (chunksSortedBy_one effStart l),
      fun k => sortLoopBy_filter le_rfl (chunksSortedBy_one effStart l) k⟩

/-- C10: `qcompare` on the four standard quality codes {R,D,Q,M} is a
strict total order — antisymmetric with R < D < Q < M (returning 1 when
`quality2` outranks `quality1`) — but as soon as one of two distinct
codes lies outside the standard set, `qcompare` returns -1 in both
argument orders, each code being reported strictly higher than the
other, so non-standard codes are not ordered. -/
theorem qcompare_priority_order (q1 q2 : Char) (hne : q1 ≠ q2) :
    (q1 ∈ standardQualities → q2 ∈ standardQualities →
      qcompare q1 q2 = -(qcompare q2 q1) ∧
      (qcompare q1 q2 = 1 ↔ qualityRank q1 < qualityRank q2)) ∧
    (q1 ∉ standardQualities ∨ q2 ∉ standardQualities →
      qcompare q1 q2 = -1 ∧ qcompare q2 q1 = -1) := by
  constructor
  · intro h1 h2
    simp only [standardQualities, List.mem_cons, List.not_mem_nil, or_false] at h1 h2
    rcases h1 with rfl | rfl | rfl | rfl <;> rcases h2 with rfl | rfl | rfl | rfl <;>
      first
      | exact absurd rfl hne
      | decide
  · intro h
    exact ⟨qcompare_nonstandard hne h, qcompare_nonstandard hne.symm h.symm⟩

/-- Witness for C10 at the concrete pairs ('R','D') and ('X','R'). -/
theorem qcompare_priority_order_witness :
    (qcompare 'R' 'D' = -(qcompare 'D' 'R') ∧
      (qcompare 'R' 'D' = 1 ↔ qualityRank 'R' < qualityRank 'D')) ∧
    (qcompare 'X' 'R' = -1 ∧ qcompare 'R' 'X' = -1) :=
  ⟨(qcompare_priority_order 'R' 'D' (by decide)).1 (by decide) (by decide),
   (qcompare_priority_order 'X' 'R' (by decide)).2 (Or.inl (by decide))⟩

/-- The forward contributing-record walk is `List.find?` on
`reclen > 0`. -/
lemma firstContributing_eq_find (recs : List Record) :
    firstContributing recs = recs.find? (fun r => decide (0 < r.reclen)) := by
  induction recs with
  | nil => rfl
  | cons r rest ih =>
    rw [firstContributing, List.find?_cons]
    by_cases h : 0 < r.reclen
    · simp [h]
    · simp [h, ih]

/-- C7: for a segment that still has a contributing record
(`reclen > 0`), the reconciler sets the segment start time to the
first contributing record's `new_start` when that is set and later
than the record's original start time, else to that record's start
time; and symmetrically sets the segment end time from the last
contributing record's `new_end`. -/
theorem reconcile_tracetimes_bounds (seg : MSTraceSeg) (f l : Record)
    (hf : seg.recs.find? (fun r => decide (0 < r.reclen)) = some f)
    (hl : seg.recs.reverse.find? (fun r => decide (0 < r.reclen)) = some l) :
    (reconcileTracetimesSeg seg).starttime =
      (match f.newstart with
       | some ns => if ns > f.starttime then ns else f.starttime
       | none => f.starttime) ∧
    (reconcileTracetimesSeg seg).endtime =
      (match l.newend with
       | some ne => if ne < l.endtime then ne else l.endtime
       | none => l.endtime) := by
  unfold reconcileTracetimesSeg lastContributing
  rw [firstContributing_eq_find, firstContributing_eq_find, hf, hl]
  cases hfn : f.newstart <;> cases hln : l.newend <;> simp [hfn, hln]

/-- Witness for C7 at the concrete segment `segRecon`, whose only
contributing record is `recMid` (bounds 7 and 18 inside [5,20]). -/
theorem reconcile_tracetimes_bounds_witness :
    (reconcileTracetimesSeg segRecon).starttime = 7 ∧
    (reconcileTracetimesSeg segRecon).endtime = 18 := by
  have h := reconcile_tracetimes_bounds segRecon recMid recMid (by decide) (by decide)
  exact ⟨h.1.trans (by decide), h.2.trans (by decide)⟩

/-- The first record produced by the splitting loop keeps the incoming
`newstart`. -/
lemma splitOnBoundary_head (sb : SplitBoundary) (rec : Record) :
    ∃ r rest, splitOnBoundary sb rec = r :: rest ∧ r.newstart = rec.newstart := by
  rw [splitOnBoundary]
  split_ifs with h
  · exact ⟨_, _, rfl, rfl⟩
  · exact ⟨rec, [], rfl, rfl⟩

/-- C9: with boundary splitting, a record crossing at least one
boundary of the chosen granularity becomes multiple entries, and the
TrimBounds of adjacent entries are back to back: each later entry
starts at some boundary `b` with `new_start = b` while its predecessor
ends with `new_end = b - 1`. -/
theorem splitOnBoundary_backtoback (sb : SplitBoundary) (rec : Record) :
    (∀ i : Nat, i + 1 < (splitOnBoundary sb rec).length →
      ∃ (r1 r2 : Record) (b : Hptime),
        (splitOnBoundary sb rec).get? i = some r1 ∧
        (splitOnBoundary sb rec).get? (i + 1) = some r2 ∧
        r2.newstart = some b ∧ r1.newend = some (b - 1)) ∧
    (rec.endtime ≥ nextBoundary sb (rec.newstart.getD rec.starttime) →
      2 ≤ (splitOnBoundary sb rec).length) := by
  induction rec using splitOnBoundary.induct sb with
  | case1 rec hge ih =>
    obtain ⟨r2, rest2, heq, hns⟩ :=
      splitOnBoundary_head sb
        { rec with newstart := some (nextBoundary sb (rec.newstart.getD rec.starttime)) }
    rw [heq] at ih
    rw [splitOnBoundary, dif_pos hge, heq]
    constructor
    · intro i h
      cases i with
      | zero =>
        refine ⟨_, r2, nextBoundary sb (rec.newstart.getD rec.starttime),
          rfl, rfl, ?_, rfl⟩
        simpa using hns
      | succ j =>
        simp only [List.length_cons] at h
        obtain ⟨r1, r2', b, h1, h2, h3, h4⟩ := ih.1 j (by simp only [List.length_cons]; omega)
        exact ⟨r1, r2', b, h1, h2, h3, h4⟩
    · intro _
      simp
  | case2 rec hge =>
    rw [splitOnBoundary, dif_neg hge]
    constructor
    · intro i h
      simp at h
    · intro hc
      exact absurd hc hge

/-- Witness for C9: the one-minute-crossing record `recSplit` splits
into two entries with `new_end = 59999999` and `new_start = 60000000`. -/
theorem splitOnBoundary_backtoback_witness :
    2 ≤ (splitOnBoundary .minute recSplit).length ∧
    ∃ (r1 r2 : Record) (b : Hptime),
      (splitOnBoundary .minute recSplit).get? 0 = some r1 ∧
      (splitOnBoundary .minute recSplit).get? 1 = some r2 ∧
      r2.newstart = some b ∧ r1.newend = some (b - 1) := by
  have hlen : (splitOnBoundary .minute recSplit).length = 2 := by
    rw [splitOnBoundary, dif_pos (by decide), splitOnBoundary, dif_neg (by decide)]
    rfl
  refine ⟨(splitOnBoundary_backtoback .minute recSplit).2 (by decide), ?_⟩
  exact (splitOnBoundary_backtoback .minute recSplit).1 0 (by omega)

/-- A record already marked non-contributing passes through the
coverage walk unchanged. -/
lemma trimtraceRec_of_reclen_zero (cfg : Config) (hpdelta hptimetol : Hptime)
    (covs : List MSTrace) {rec : Record} (h : rec.reclen = 0) :
    trimtraceRec cfg hpdelta hptimetol covs rec = rec := by
  cases covs with
  | nil => rfl
  | cons c cs => rw [trimtraceRec, if_pos h]

/-- The coverage walk splits over list concatenation. -/
lemma trimtraceRec_append (cfg : Config) (hpdelta hptimetol : Hptime)
    (l1 l2 : List MSTrace) (rec : Record) :
    trimtraceRec cfg hpdelta hptimetol (l1 ++ l2) rec =
      trimtraceRec cfg hpdelta hptimetol l2 (trimtraceRec cfg hpdelta hptimetol l1 rec) := by
  induction l1 generalizing rec with
  | nil => rfl
  | cons c cs ih =>
    rw [List.cons_append, trimtraceRec, trimtraceRec]
    by_cases h : rec.reclen = 0
    · rw [if_pos h, if_pos h, trimtraceRec_of_reclen_zero cfg hpdelta hptimetol l2 h]
    · rw [if_neg h, if_neg h, ih]

/-- Phase A of `trimStep`: a record whose effective interval lies
inside the coverage entry expanded by the tolerance is marked
non-contributing, and nothing else of it changes. -/
lemma trimStep_phaseA (cfg : Config) (hpdelta hptimetol : Hptime)
    (c : MSTrace) (rec : Record)
    (h1 : effSelStart rec ≥ c.starttime - hptimetol)
    (h2 : effSelEnd rec ≤ c.endtime + hptimetol) :
    trimStep cfg hpdelta hptimetol c rec = { rec with reclen := 0 } := by
  unfold trimStep
  simp only [if_pos (And.intro h1 h2)]
  simp

/-- C4: in the Pruner, a record of the target segment whose effective
interval (TrimBound applied, then SelectBound where stricter) lies
inside a coverage entry expanded by the time tolerance — in the state
the record has reached when that entry is processed — gets
`reclen = 0`, and the walk leaves the marked record untouched for all
later coverage entries. -/
theorem trimtrace_whole_record_removal (cfg : Config) (hpdelta hptimetol : Hptime)
    (rec : Record) (cs1 cs2 : List MSTrace) (c : MSTrace)
    (h1 : (trimtraceRec cfg hpdelta hptimetol cs1 rec).reclen ≠ 0)
    (h2 : effSelStart (trimtraceRec cfg hpdelta hptimetol cs1 rec) ≥
      c.starttime - hptimetol)
    (h3 : effSelEnd (trimtraceRec cfg hpdelta hptimetol cs1 rec) ≤
      c.endtime + hptimetol) :
    (trimtraceRec cfg hpdelta hptimetol (cs1 ++ c :: cs2) rec).reclen = 0 ∧
    trimtraceRec cfg hpdelta hptimetol (cs1 ++ c :: cs2) rec =
      { trimtraceRec cfg hpdelta hptimetol cs1 rec with reclen := 0 } := by
  have hstep := trimStep_phaseA cfg hpdelta hptimetol c
    (trimtraceRec cfg hpdelta hptimetol cs1 rec) h2 h3
  rw [trimtraceRec_append, trimtraceRec, if_neg h1, hstep,
    trimtraceRec_of_reclen_zero cfg hpdelta hptimetol cs2 rfl]
  exact ⟨rfl, rfl⟩

/-- Witness for C4: the record [0,100] is wholly inside the coverage
entry [0,100] and is removed by the first entry of the coverage
list. -/
theorem trimtrace_whole_record_removal_witness :
    (trimtraceRec cfgPs 10 5
      ([] ++ ({ starttime := 0, endtime := 100 } : MSTrace) :: [])
      { reclen := 512, starttime := 0, endtime := 100 }).reclen = 0 :=
  (trimtrace_whole_record_removal cfgPs 10 5
    { reclen := 512, starttime := 0, endtime := 100 } [] []
    { starttime := 0, endtime := 100 } (by decide) (by decide) (by decide)).1

/-- C5 (counterexample): for the record [97,203] against the coverage
entry [100,200] with `hpdelta = 10` and `hptimetol = 5` under `-Ps`,
the claim's left-overlap hypothesis holds (97 < 100 and
203 + 5 ≥ 100), but Phase A removes the whole record first
(97 ≥ 100 − 5 and 203 ≤ 200 + 5): `new_end` is never set, so the
claimed `new_end = cov.start − sample_period + timetol = 95` is not
produced. -/
theorem trimStep_left_overlap_counterexample :
    effSelStart recPhaseA < covPhaseA.starttime ∧
    effSelEnd recPhaseA + 5 ≥ covPhaseA.starttime ∧
    (trimStep cfgPs 10 5 covPhaseA recPhaseA).newend = none ∧
    ¬ (trimStep cfgPs 10 5 covPhaseA recPhaseA).newend =
      some (covPhaseA.starttime - 10 + 5) := by decide

/-- The right-overlap step never changes `newend`. -/
lemma trimStepRight_newend (cfg : Config) (hpdelta hptimetol : Hptime)
    (cmst : MSTrace) (es ee2 : Hptime) (rec2 : Record) :
    (trimStepRight cfg hpdelta hptimetol cmst es ee2 rec2).1.newend = rec2.newend := by
  unfold trimStepRight
  split
  · cases cfg.endtime with
    | none => rfl
    | some ge => dsimp only; split <;> rfl
  · rfl

/-- The right-overlap step keeps a removed record removed. -/
lemma trimStepRight_reclen_zero (cfg : Config) (hpdelta hptimetol : Hptime)
    (cmst : MSTrace) (es ee2 : Hptime) {rec2 : Record} (h : rec2.reclen = 0) :
    (trimStepRight cfg hpdelta hptimetol cmst es ee2 rec2).1.reclen = 0 := by
  unfold trimStepRight
  split
  · cases cfg.endtime with
    | none => exact h
    | some ge => dsimp only; split <;> simp [h]
  · exact h

/-- C5 (amended): under sample-level pruning, a contributing record
whose effective interval overlaps the beginning of a coverage entry
and is NOT wholly contained in the entry expanded by the tolerance
(Phase A not applying) gets `new_end = cov.start − hpdelta +
hptimetol`; and when a global start time is set and that bound falls
before it, the record is marked non-contributing (`reclen = 0`). -/
theorem trimStep_left_overlap (cfg : Config) (hpdelta hptimetol : Hptime)
    (c : MSTrace) (rec : Record)
    (hp : cfg.prunedata = 's') (hr : rec.reclen ≠ 0)
    (hA : ¬(effSelStart rec ≥ c.starttime - hptimetol ∧
      effSelEnd rec ≤ c.endtime + hptimetol))
    (hs : effSelStart rec < c.starttime)
    (he : effSelEnd rec + hptimetol ≥ c.starttime) :
    (trimStep cfg hpdelta hptimetol c rec).newend =
      some (c.starttime - hpdelta + hptimetol) ∧
    (∀ gs, cfg.starttime = some gs → c.starttime - hpdelta + hptimetol < gs →
      (trimStep cfg hpdelta hptimetol c rec).reclen = 0) := by
  have hleft : (trimStepLeft cfg hpdelta hptimetol c (effSelStart rec)
      (effSelEnd rec) rec).1.newend = some (c.starttime - hpdelta + hptimetol) ∧
      (∀ gs, cfg.starttime = some gs → c.starttime - hpdelta + hptimetol < gs →
        (trimStepLeft cfg hpdelta hptimetol c (effSelStart rec)
          (effSelEnd rec) rec).1.reclen = 0) := by
    unfold trimStepLeft
    rw [if_pos (And.intro hs he)]
    cases hcs : cfg.starttime with
    | none =>
      refine ⟨rfl, ?_⟩
      intro gs hgs
      simp at hgs
    | some gs0 =>
      dsimp only
      split
      · refine ⟨rfl, ?_⟩
        intro gs hgs hlt
        rfl
      · refine ⟨rfl, ?_⟩
        intro gs hgs hlt
        rename_i hnlt
        rw [← Option.some.inj hgs] at hlt
        exact absurd hlt hnlt
  unfold trimStep
  simp only [if_neg hA, if_pos (And.intro hp hr)]
  constructor
  · split
    · simp only [trimStepRight_newend, hleft.1]
    · rw [trimStepRight_newend, hleft.1]
  · intro gs hgs hlt
    have h0 := hleft.2 gs hgs hlt
    split
    · simp
    · exact trimStepRight_reclen_zero cfg hpdelta hptimetol c _ _ h0

/-- Witness for C5 (amended) at the record [0,203] against [100,200]
with global start 150: `new_end = 95 < 150`, so the record is also
marked non-contributing. -/
theorem trimStep_left_overlap_witness :
    (trimStep cfgPsTs 10 5 covPhaseA recLeftOverlap).newend =
      some (covPhaseA.starttime - 10 + 5) ∧
    (trimStep cfgPsTs 10 5 covPhaseA recLeftOverlap).reclen = 0 := by
  have h := trimStep_left_overlap cfgPsTs 10 5 covPhaseA recLeftOverlap
    (by decide) (by decide) (by decide) (by decide) (by decide)
  exact ⟨h.1, h.2 150 (by decide) (by decide)⟩

/-- The doubling loop on a one-element list returns it unchanged. -/
lemma sortLoopBy_singleton (key : α → Int) (a : α) :
    sortLoopBy key 1 [a] = [a] := by
  rw [sortLoopBy]
  norm_num
  rw [onepassBy]
  norm_num
  rw [onepassBy]
  simp [mergeBy]

/-- The doubling loop on an already-ordered pair returns it
unchanged. -/
lemma sortLoopBy_pair (key : α → Int) (a b : α) (h : ¬ key a > key b) :
    sortLoopBy key 1 [a, b] = [a, b] := by
  rw [sortLoopBy]
  norm_num
  rw [onepassBy]
  norm_num
  rw [onepassBy]
  norm_num
  rw [mergeBy, if_neg h]
  simp [mergeBy]

/-- Sorting a one-element write list is the identity. -/
lemma sortGroup_singleton (cfg : Config) (w : WRecord) :
    sortGroup cfg [w] = [w] := by
  unfold sortGroup
  split
  · simp [sortLoopBy_singleton]
  · rfl

/-- Sorting an already-ordered two-element write list is the
identity. -/
lemma sortGroup_pair (cfg : Config) (w1 w2 : WRecord)
    (h : ¬ effStart w1.record > effStart w2.record) :
    sortGroup cfg [w1, w2] = [w1, w2] := by
  unfold sortGroup
  split
  · simp only [List.isEmpty_cons, if_false, Bool.false_eq_true]
    exact sortLoopBy_pair _ _ _ h
  · rfl

/-- C1 (amended): when `trimrecord` reports a codec (unpack) error on
a record, the write loop emits nothing for that record — the untrimmed
buffer is NOT written — and stops the current source-ID group with
`errflag = 2` (its remaining records are skipped); the outer loop then
resets the flag and continues with the next source-ID group. -/
theorem writetraces_codec_error_skips_channel (cfg : Config) (w : WRecord)
    (rest g : List WRecord) (gs : List (List WRecord)) (out : List (List Nat))
    (buf : List Nat)
    (h1 : w.record.newstart.isSome ∨ w.record.newend.isSome)
    (h2 : w.unpackok = false)
    (h3 : trimBoundsBad w.record = false)
    (hg : sortGroup cfg g = w :: rest) :
    writeRecords cfg (w :: rest) out buf =
      (out, 2, if w.staged then buf else w.content) ∧
    writetracesGo cfg (g :: gs) out buf =
      writetracesGo cfg gs out (if w.staged then buf else w.content) := by
  have htrim : trimrecord w = (.unpackerr, w.record) := by
    unfold trimrecord
    rw [if_neg (by simp [h3]), if_pos (by simp [h2])]
  have hfirst : ∀ (o : List (List Nat)) (b : List Nat),
      writeRecords cfg (w :: rest) o b = (o, 2, if w.staged then b else w.content) := by
    intro o b
    rw [writeRecords]
    simp only [if_pos h1, htrim]
  refine ⟨hfirst out buf, ?_⟩
  rw [writetracesGo, hg, hfirst [] buf]
  simp

/-- Witness for C1 (amended) at the concrete codec-error record
`wUnpackFail`: its group produces no output and the run continues. -/
theorem writetraces_codec_error_skips_channel_witness :
    writeRecords cfgPs [wUnpackFail] [] [] = ([], 2, [7, 7, 7]) ∧
    writetraces cfgPs [[wUnpackFail]] = [] := by
  have h := writetraces_codec_error_skips_channel cfgPs wUnpackFail [] [wUnpackFail]
    [] [] [] (by decide) (by decide) (by decide)
    (sortGroup_singleton cfgPs wUnpackFail)
  refine ⟨h.1.trans (by decide), ?_⟩
  show writetracesGo cfgPs [[wUnpackFail]] [] [] = []
  rw [h.2]
  rfl

/-- C1 (counterexample): the claim says the untrimmed record buffer
([7,7,7] for `wUnpackFail`) is still written when trim reports a codec
error; in fact the output is empty — the record itself is skipped
along with the rest of its source-ID group. -/
theorem writetraces_codec_error_counterexample :
    writetraces cfgPs [[wUnpackFail]] = [] ∧ wUnpackFail.content = [7, 7, 7] := by
  have hs : sortGroup cfgPs [wUnpackFail] = [wUnpackFail] :=
    sortGroup_singleton cfgPs wUnpackFail
  constructor
  · rw [writetraces, writetracesGo, hs]
    decide
  · rfl

/-- C8 (code bug): for the staged record `wStagedAscii` with a
TrimBound and ASCII (unsupported) encoding, `trimrecord` does return
success without modifying the record, and the run does not fail — but
the bytes emitted for it are the stale content of the global record
buffer (here `[1,2,3]`, left over from `wPlain`), not the record's own
bytes `[9,9,9]`: the write loop redirects the record pointer to the
global buffer after every successful `trimrecord`, even when the trim
was skipped and nothing was repacked into that buffer. -/
theorem trimrecord_unsupported_stale_buffer :
    trimrecord wStagedAscii = (.ok none, wStagedAscii.record) ∧
    writetraces cfgPs [[wPlain, wStagedAscii]] = [[1, 2, 3], [1, 2, 3]] ∧
    wStagedAscii.content = [9, 9, 9] := by
  have hs : sortGroup cfgPs [wPlain, wStagedAscii] = [wPlain, wStagedAscii] :=
    sortGroup_pair cfgPs wPlain wStagedAscii (by decide)
  refine ⟨by decide, ?_, rfl⟩
  rw [writetraces, writetracesGo, hs]
  decide

set_option maxRecDepth 8000 in
/-- C3 (counterexample): for R1 = [0 s, 9.99 s] and R2 = [5 s, 14.99 s]
at 100 Hz under `-Ps`, the pipeline trims R1 (its `new_end` is set to
4.995 s) and leaves R2 intact apart from a no-op `new_start` equal to
its own original start (5 s): on the priority tie (equal quality,
equal length) each peer outranks the current target, so the first
segment processed (R1) loses — the opposite of the claim, which
expects R1 unchanged and R2 trimmed to start at 10 s. -/
theorem prunetraces_tie_counterexample :
    prunetraces cfgPs mstlR12 =
      [{ idR12 with segs := [
          { segR1 with recs := [{ recR1 with newend := some 4995000 }] },
          { segR2 with recs := [{ recR2 with newstart := some 5000000 }] }] }] ∧
    ¬ prunetraces cfgPs mstlR12 =
      [{ idR12 with segs := [
          segR1,
          { segR2 with recs := [{ recR2 with newstart := some 10000000 }] }] }] := by
  decide

set_option maxRecDepth 8000 in
/-- C3 (amended): in the two-record tie scenario the coverage tie-break
favours the peer segment, so R1 is emitted trimmed — `new_end =
00:00:04.995`, which the back-trim loop of `trimrecord` turns into 500
dropped samples, leaving 500 — while R2 is emitted whole: its
`new_start` is set to 00:00:05, its own start time, so the front-trim
loop drops 0 samples. -/
theorem prunetraces_tie_amended :
    prunetraces cfgPs mstlR12 =
      [{ idR12 with segs := [
          { segR1 with recs := [{ recR1 with newend := some 4995000 }] },
          { segR2 with recs := [{ recR2 with newstart := some 5000000 }] }] }] ∧
    backtrimsamples 10000 9990000 4995000 1000 = 500 ∧
    fronttrimsamples 10000 5000000 5000000 1000 = 0 := by
  decide

/-- C2 (counterexample): for the record [10,20] against one matching
selection whose two windows [0,12] and [18,25] are disjoint (their
intersection, and a fortiori its intersection with the record, is
empty), the claim predicts the SelectBound is cleared with a warning
and pruning is skipped; the code instead stores the enclosing hull
(selectstart 0, selectend 25) — nothing is cleared and no skip
occurs. -/
theorem findselectlimits_disjoint_counterexample :
    recSel.selectstart = none ∧ recSel.selectend = none ∧
    (findselectlimits selsDisjoint 10 20 recSel).selectstart = some 0 ∧
    (findselectlimits selsDisjoint 10 20 recSel).selectend = some 25 := by
  decide

/-- Windows of a selection with no overlapping window all fail the
overlap filter. -/
lemma msMatchselectWindows_none {st et : Hptime} {ws : List SelectTime}
    (h : msMatchselectWindows st et ws = none) :
    ws.filter (overlapswindow st et) = [] := by
  induction ws with
  | nil => rfl
  | cons w rest ih =>
    rw [msMatchselectWindows] at h
    by_cases hov : overlapswindow st et w
    · rw [if_pos hov] at h
      exact absurd h (by simp)
    · rw [if_neg hov] at h
      rw [List.filter_cons]
      simp only [hov]
      exact ih h

/-- The window suffix returned by `msMatchselectWindows` carries
exactly the overlapping windows of the full list. -/
lemma msMatchselectWindows_some {st et : Hptime} {ws ws2 : List SelectTime}
    (h : msMatchselectWindows st et ws = some ws2) :
    ws.filter (overlapswindow st et) = ws2.filter (overlapswindow st et) := by
  induction ws with
  | nil => simp [msMatchselectWindows] at h
  | cons w rest ih =>
    rw [msMatchselectWindows] at h
    by_cases hov : overlapswindow st et w
    · rw [if_pos hov] at h
      rw [Option.some.inj h]
    · rw [if_neg hov] at h
      rw [List.filter_cons]
      simp only [hov]
      exact ih h

/-- Unfolding `matchingWindows` over one selections entry. -/
lemma matchingWindows_cons (st et : Hptime) (s : Selections) (rest : List Selections) :
    matchingWindows st et (s :: rest) =
      (if s.srcmatch then s.timewindows.filter (overlapswindow st et) else []) ++
        matchingWindows st et rest := by
  unfold matchingWindows
  rw [List.filter_cons]
  by_cases hs : s.srcmatch
  · simp [hs]
  · simp [hs]

/-- The inner window loop computes the envelope of the overlapping
windows: if it returns early (`true`) any further windows are ignored,
else the envelope continues from the updated record. -/
lemma selecttimeLoop_envelope {st et : Hptime} (h : st ≤ et) (ws : List SelectTime) :
    ∀ (rec : Record) (more : List SelectTime),
      selectBoundEnvelope (ws.filter (overlapswindow st et) ++ more) rec =
        (if (selecttimeLoop st et ws rec).2 then (selecttimeLoop st et ws rec).1
         else selectBoundEnvelope more (selecttimeLoop st et ws rec).1) := by
  induction ws with
  | nil =>
    intro rec more
    simp [selecttimeLoop]
  | cons w rest ih =>
    intro rec more
    by_cases h1 : st < w.starttime ∧ ¬(st ≤ w.starttime ∧ et ≥ w.starttime)
    · have hov : overlapswindow st et w = false := by
        have hw : et < w.starttime := by
          rcases h1 with ⟨ha, hb⟩
          by_contra hc
          exact hb ⟨le_of_lt ha, le_of_not_lt hc⟩
        simp only [overlapswindow, decide_eq_false_iff_not]
        intro hc
        exact absurd hc.1 (not_le.mpr hw)
      rw [List.filter_cons]
      simp only [hov]
      rw [selecttimeLoop, if_pos h1]
      exact ih rec more
    · by_cases h2 : et > w.endtime ∧ ¬(st ≤ w.endtime ∧ et ≥ w.endtime)
      · have hov : overlapswindow st et w = false := by
          have hw : w.endtime < st := by
            rcases h2 with ⟨ha, hb⟩
            by_contra hc
            exact hb ⟨le_of_not_lt hc, le_of_lt ha⟩
          simp only [overlapswindow, decide_eq_false_iff_not]
          intro hc
          exact absurd hc.2 (not_le.mpr hw)
        rw [List.filter_cons]
        simp only [hov]
        rw [selecttimeLoop, if_neg h1, if_pos h2]
        exact ih rec more
      · have hov : overlapswindow st et w = true := by
          simp only [overlapswindow, decide_eq_true_eq]
          constructor
          · rcases not_and_or.mp h1 with ha | hb
            · exact le_trans (le_of_not_lt ha) h
            · rcases not_not.mp hb with ⟨_, hc⟩
              exact hc
          · rcases not_and_or.mp h2 with ha | hb
            · exact le_trans h (le_of_not_lt ha)
            · rcases not_not.mp hb with ⟨hc, _⟩
              exact hc
        rw [List.filter_cons]
        simp only [hov]
        rw [selecttimeLoop, if_neg h1, if_neg h2]
        simp only [selectBoundEnvelope]
        by_cases hshort : rec.starttime ≥ (match rec.selectstart with
            | none => w.starttime
            | some s => if s > w.starttime then w.starttime else s) ∧
          rec.endtime ≤ (match rec.selectend with
            | none => w.endtime
            | some e => if e < w.endtime then w.endtime else e)
        · simp only [if_pos hshort]
          simp
        · simp only [if_neg hshort]
          exact ih _ more

/-- C2 (amended): `findselectlimits` stores the envelope of the
matching windows — `selectstart` is lowered to each source-matching,
record-overlapping window's start and `selectend` raised to its end,
in order, stopping early once the record lies inside the bound; a
window disjoint from the bound so far simply extends the hull, nothing
is ever cleared, no warning is issued and pruning is not skipped. -/
theorem findselectlimits_envelope (sels : List Selections) (st et : Hptime)
    (rec : Record) (h : st ≤ et) :
    findselectlimits sels st et rec =
      selectBoundEnvelope (matchingWindows st et sels) rec := by
  induction sels generalizing rec with
  | nil => rfl
  | cons s rest ih =>
    rw [matchingWindows_cons, findselectlimits]
    by_cases hs : s.srcmatch
    · rw [if_pos hs, if_pos hs]
      cases hm : msMatchselectWindows st et s.timewindows with
      | none =>
        rw [msMatchselectWindows_none hm]
        simp only [List.nil_append]
        exact ih rec
      | some ws =>
        rw [msMatchselectWindows_some hm]
        have henv := selecttimeLoop_envelope h ws rec (matchingWindows st et rest)
        cases hloop : selecttimeLoop st et ws rec with
        | mk rec1 done =>
          rw [hloop] at henv
          rw [henv]
          cases done with
          | true => simp [hloop]
          | false => simpa [hloop] using ih rec1
    · rw [if_neg hs, if_neg (by simpa using hs)]
      simp only [List.nil_append]
      exact ih rec

/-- Witness for C2 (amended) at the disjoint-window input: the code
and the envelope reference agree, and the stored bound is the hull
(0, 25). -/
theorem findselectlimits_envelope_witness :
    findselectlimits selsDisjoint 10 20 recSel =
      selectBoundEnvelope (matchingWindows 10 20 selsDisjoint) recSel ∧
    (selectBoundEnvelope (matchingWindows 10 20 selsDisjoint) recSel).selectstart =
      some 0 ∧
    (selectBoundEnvelope (matchingWindows 10 20 selsDisjoint) recSel).selectend =
      some 25 := by
  refine ⟨findselectlimits_envelope selsDisjoint 10 20 recSel (by decide), ?_, ?_⟩ <;>
    decide

end Dataselect
